import Mathlib

/-!
# A verification model of the console-etl catalog cache

This file gives a shallow embedding of the core fetch → decompose → publish →
evict → query pipeline of the repository and proves the specification claims
about it.

Modelling conventions, used throughout:

* Paths are lists of path components (`List String`), relative to the cache
  root.  `filepath.Join` never receives an empty component on the code's
  reachable paths (the bucket is defaulted to `"__global"`, the schema is
  non-empty by the decoder's contract, and the file name always carries the
  `".json"` suffix), so plain list concatenation is a faithful model.
* Times are `Nat` seconds.  HTTP dates (`Last-Modified`, `If-Modified-Since`)
  are a second-resolution injective encoding of times, so a header slot is
  modelled by the time it denotes: `Option Nat`, with `none` standing for an
  absent or unparseable header (`http.ParseTime` fails exactly there).
* Byte contents (`m.Blob` in the source) are modelled by how the program can
  observe them: the query layer's only decoding step is `json.Unmarshal` into
  `declcfg.Package`, inspecting the optional `icon` field.  A `Blob` is
  therefore either JSON that unmarshals into a package value with an optional
  icon, or malformed JSON.
* Filesystem write failures (`ENOSPC` and the like) are not modelled: every
  `MkdirAll`/`WriteFile`/`Rename` that is invoked on existing sources
  succeeds.  The failures the code branches on — stat `IsNotExist`, transport
  errors, unparseable `Last-Modified`, decode errors from the record stream,
  `Chtimes` on a never-created directory, `Symlink` onto an existing `next`
  link — are all represented.
-/

/-! ## Definitions: the embedded data model and operations -/

/-- An icon carried by a package-descriptor blob: media type plus data bytes
(`declcfg.Icon`). -/
structure Icon where
  mediaType : String
  data : String
deriving DecidableEq, Repr

/-- Byte content of one catalog record, observed through the only decoding the
program performs on stored bytes (`json.Unmarshal` into `declcfg.Package`).
`pkgJson i` is JSON that unmarshals to a package value whose icon field is `i`
(any valid JSON that is not a package descriptor unmarshals with a `nil` icon,
hence is `pkgJson none`); `invalidJson` fails to unmarshal. -/
inductive Blob where
  | pkgJson (icon : Option Icon)
  | invalidJson
deriving DecidableEq, Repr

/-- Model of `json.Unmarshal(pkgData, &pkg)` followed by reading `pkg.Icon`:
`none` is an unmarshal error, `some i` a successful unmarshal with icon `i`. -/
def unmarshalPackageIcon : Blob → Option (Option Icon)
  | .pkgJson i => some i
  | .invalidJson => none

/-- One decoded catalog record, `declcfg.Meta`: schema, package, name, raw
bytes.  The decoder guarantees a non-empty schema; package and name may be
empty. -/
structure Meta where
  schema : String
  package : String
  name : String
  blob : Blob
deriving DecidableEq, Repr

/-- Model of `declcfg.SchemaPackage`: the schema string marking package descriptors. -/
def schemaPackage : String := "olm.package"

/-- The bucket directory a record is filed under, translated from
`writeCatalog`: start from `m.Package`, replace it by `m.Name` when the schema
is the package schema, and default the result to `"__global"` when it is
empty. -/
def bucketOf (m : Meta) : String :=
  let packageName := if m.schema = schemaPackage then m.name else m.package
  if packageName = "" then "__global" else packageName

/-- The snapshot-relative path `{bucket}/{schema}/{name}.json` a record is
filed at. -/
def filePathOf (m : Meta) : List String :=
  [bucketOf m, m.schema, m.name ++ ".json"]

/-- A snapshot directory tree: the set of directories created by `MkdirAll`
(as snapshot-relative paths) and the files written by `WriteFile` (path ↦
content, unique keys). -/
structure SnapDir where
  dirs : List (List String)
  files : List (List String × Blob)
deriving DecidableEq, Repr

/-- The empty snapshot directory. -/
def SnapDir.empty : SnapDir := ⟨[], []⟩

/-- Record a single directory as existing (idempotent). -/
def addDir (d : List String) (ds : List (List String)) : List (List String) :=
  if d ∈ ds then ds else d :: ds

/-- Model of `os.MkdirAll`: create the directory `p` and all its ancestors. -/
def mkdirAll (p : List String) (ds : List (List String)) : List (List String) :=
  ((List.range p.length).map (fun i => p.take (i + 1))).foldl
    (fun acc d => addDir d acc) ds

/-- Model of `os.WriteFile`: write `b` at `p`, truncating (replacing) any existing
file. -/
def writeFile (p : List String) (b : Blob) (fsx : List (List String × Blob)) :
    List (List String × Blob) :=
  (p, b) :: fsx.filter (fun kv => kv.1 ≠ p)

/-- Look up the content of the file at `p`. -/
def lookupFile (d : SnapDir) (p : List String) : Option Blob :=
  (d.files.find? (fun kv => kv.1 = p)).map (·.2)

/-- File one record into a snapshot directory: `MkdirAll` on the parent of its
filing path, then `WriteFile` of its bytes — the body of `writeCatalog`'s
per-record callback. -/
def applyMeta (d : SnapDir) (m : Meta) : SnapDir :=
  { dirs := mkdirAll [bucketOf m, m.schema] d.dirs
    files := writeFile (filePathOf m) m.blob d.files }

/-- Run the decomposer over a decoded record prefix.  `start = none` means the
snapshot directory does not exist yet; the first record's `MkdirAll` creates
it.  (When the stream later reports a decode error, the records already
decoded have already been filed — `declcfg.WalkMetasReader` streams.) -/
def writeCatalogFold (start : Option SnapDir) (metas : List Meta) :
    Option SnapDir :=
  metas.foldl (fun od m => some (applyMeta (od.getD SnapDir.empty) m)) start

/-- One published snapshot: its decomposed content and the directory's
modification time. -/
structure Snap where
  content : SnapDir
  mtime : Nat
deriving DecidableEq, Repr

/-- The on-disk subtree of one catalog,
`{cacheRoot}/clustercatalogs/{name}/`: the snapshot directories keyed by their
timestamp-derived base name, the `active` symlink's target (a snapshot base
name), and the transient `next` symlink's target. -/
structure CatalogDir where
  snaps : List (String × Snap)
  active : Option String
  next : Option String
deriving DecidableEq, Repr

/-- One entry of the expirable LRU.  The stored value is always
`catalogPath(key)` (`lru.Add(name, catalogPath)` is the only insertion), so it
is determined by the key and not repeated here; the eviction callback
`os.RemoveAll(value)` therefore removes exactly the catalog named by the
key. -/
structure LruEntry where
  key : String
  expiresAt : Nat
deriving DecidableEq, Repr

/-- The whole client state: the in-memory eviction cache (most recent first)
and the on-disk cache tree, keyed by catalog name (unique keys). -/
structure St where
  lru : List LruEntry
  disk : List (String × CatalogDir)
deriving DecidableEq, Repr

/-- The eviction cache's capacity, `expirable.NewLRU(100, ...)`. -/
def lruCapacity : Nat := 100

/-- The eviction cache's TTL, `time.Hour*24`, in seconds. -/
def lruTTL : Nat := 86400

/-- The eviction callback `os.RemoveAll(catalogPath)`: delete the named
catalog's entire on-disk subtree. -/
def removeCatalog (name : String) (disk : List (String × CatalogDir)) :
    List (String × CatalogDir) :=
  disk.filter (fun kv => kv.1 ≠ name)

/-- Model of `c.lru.Add(name, catalogPath)`: refresh the entry if present (recency and
TTL), otherwise insert it in front; on overflowing the capacity, drop the
oldest entry (the last of the recency list, which equals the last of the old
list since overflow forces it to be nonempty) and run the eviction callback on
it. -/
def lruAdd (now : Nat) (name : String) (st : St) : St :=
  if st.lru.any (fun x => x.key = name) then
    { st with lru :=
        ⟨name, now + lruTTL⟩ :: st.lru.filter (fun x => x.key ≠ name) }
  else if h : lruCapacity ≤ st.lru.length then
    -- `len(e :: lru) > capacity` is `capacity ≤ len(lru)`
    { lru := ((⟨name, now + lruTTL⟩ : LruEntry) :: st.lru).dropLast
      disk := removeCatalog
        ((st.lru.getLast (by
          intro hnil
          rw [hnil] at h
          simp only [List.length_nil, lruCapacity] at h
          omega)).key) st.disk }
  else
    { st with lru := (⟨name, now + lruTTL⟩ : LruEntry) :: st.lru }

/-- The expirable LRU's reaper: remove every entry whose TTL has elapsed,
running the eviction callback on each. -/
def purgeExpired (now : Nat) (st : St) : St :=
  { lru := st.lru.filter (fun e => now < e.expiresAt)
    disk := (st.lru.filter (fun e => e.expiresAt ≤ now)).foldl
      (fun d e => removeCatalog e.key d) st.disk }

/-- The catalog's on-disk subtree, if present. -/
def lookupCat (st : St) (name : String) : Option CatalogDir :=
  (st.disk.find? (fun kv => kv.1 = name)).map (·.2)

/-- Insert or replace the catalog's on-disk subtree. -/
def setCat (st : St) (name : String) (c : CatalogDir) : St :=
  { st with disk := (name, c) :: st.disk.filter (fun kv => kv.1 ≠ name) }

/-- Look up a snapshot by base name inside a catalog directory. -/
def findSnap (c : CatalogDir) (d : String) : Option Snap :=
  (c.snaps.find? (fun kv => kv.1 = d)).map (·.2)

/-- Insert or replace a snapshot by base name. -/
def setSnap (c : CatalogDir) (d : String) (s : Snap) : CatalogDir :=
  { c with snaps := (d, s) :: c.snaps.filter (fun kv => kv.1 ≠ d) }

/-- Model of `os.Stat(activeSymlinkPath)`, following the symlink: the snapshot the
`active` link resolves to, or `none` (`IsNotExist`) when the catalog, the
link, or its target is missing. -/
def statActive (st : St) (name : String) : Option Snap :=
  (lookupCat st name).bind fun c => c.active.bind fun a => findSnap c a

/-- The conditional GET sent to the remote source: the catalog name (the URL
is `{base}/catalogs/{name}/all.json`) and the `If-Modified-Since` header,
carried as the time it denotes (`none` = header absent). -/
structure Req where
  name : String
  ifModifiedSince : Option Nat
deriving DecidableEq, Repr

/-- The request `getCatalogFS` sends from state `st` (after the LRU touch):
the header is attached exactly when the active stat succeeded on a directory,
carrying the directory's mtime formatted as an HTTP date. -/
def requestFor (st : St) (name : String) : Req :=
  { name := name, ifModifiedSince := (statActive st name).map (·.mtime) }

/-- The remote source's response: HTTP status, the `Last-Modified` header as
the time it denotes (`none` = absent or unparseable, where `http.ParseTime`
fails), the successfully decoded record prefix of the body, and whether
decoding then fails (`declcfg.WalkMetasReader` reports the error after the
prefix). -/
structure Resp where
  status : Nat
  lastModified : Option Nat
  body : List Meta
  bodyBroken : Bool
deriving DecidableEq, Repr

/-- The Go error values `getCatalogFS` can return (as distinguishable
causes). -/
inductive GoErr where
  | transport
  | parseTime
  | decode
  | chtimes
  | symlinkExists
deriving DecidableEq, Repr

/-- The `fs.FS` value returned by `getCatalogFS`: `os.DirFS` over the given
cache-root-relative path (the `active` symlink's path, resolved again at each
later read). -/
structure FSView where
  root : List String
deriving DecidableEq, Repr

/-- Model of `modTime.UTC().Format("20060102_150405")`: the snapshot directory's base
name, an injective second-resolution rendering of the timestamp. -/
def fmtSnapshotDir (t : Nat) : String := toString t

/-- The Go pair `(fs.FS, error)` as returned: both components may
independently be nil. -/
def GoPair : Type := Option FSView × Option GoErr

/-- The `200` path of `getCatalogFS` once `Last-Modified` has parsed to `t`
(source lines 75–92): decompose the body into `{catalogPath}/{timestamp}/`
(a decode error aborts after the already-decoded prefix, leaving the partial,
unlinked directory behind), `Chtimes` the directory to `t` (failing when no
record ever created it), link `next`, and atomically rename `next` onto
`active`. -/
def publish200 (now : Nat) (name : String) (st1 : St) (t : Nat)
    (body : List Meta) (broken : Bool) : GoPair × St :=
  let dir := fmtSnapshotDir t
  let cat := (lookupCat st1 name).getD ⟨[], none, none⟩
  let start := (findSnap cat dir).map (·.content)
  let startMtime := ((findSnap cat dir).map (·.mtime)).getD now
  match writeCatalogFold start body with
  | none =>
    -- body empty and directory never created: `writeCatalog` itself wrote
    -- nothing; a broken stream is the decode error, otherwise `Chtimes`
    -- fails with ENOENT
    if broken then ((none, some .decode), st1)
    else ((none, some .chtimes), st1)
  | some written =>
    let cat1 := setSnap cat dir { content := written, mtime := startMtime }
    if broken then ((none, some .decode), setCat st1 name cat1)
    else
      let cat2 := setSnap cat1 dir { content := written, mtime := t }
      if cat2.next.isSome then ((none, some .symlinkExists), setCat st1 name cat2)
      else
        let cat3 := { cat2 with active := some dir, next := none }
        ((some ⟨["clustercatalogs", name, "active"]⟩, none),
          setCat st1 name cat3)

/-- Shallow embedding of `cachingClient.getCatalogFS`.  `now` is the wall
clock, `server` the remote source (`none` = transport failure of
`httpClient.Do`).  Mirrors the source line by line:

1. touch the LRU (which may synchronously evict another catalog's subtree);
2. stat the `active` symlink and attach `If-Modified-Since` when it resolves;
3. `304` → return a view over the `active` path, no writes;
4. any status other than `200` → return the *stale, provably nil* `err`
   variable together with a nil view (the pair `(nil, nil)`);
5. `200` → parse `Last-Modified` (failure → error) and run the publish
   (`publish200`). -/
def getCatalogFS (now : Nat) (name : String) (server : Req → Option Resp)
    (st : St) : GoPair × St :=
  let st1 := lruAdd now name st
  let req := requestFor st1 name
  match server req with
  | none => ((none, some .transport), st1)
  | some resp =>
    if resp.status = 304 then
      ((some ⟨["clustercatalogs", name, "active"]⟩, none), st1)
    else if resp.status ≠ 200 then
      ((none, none), st1)
    else
      match resp.lastModified with
      | none => ((none, some .parseTime), st1)
      | some t => publish200 now name st1 t resp.body resp.bodyBroken

/-- One `fs.DirEntry`: name and `IsDir`. -/
structure DirEntry where
  name : String
  dir : Bool
deriving DecidableEq, Repr

/-- The names of the immediate subdirectories of `p` in a snapshot tree. -/
def childDirs (d : SnapDir) (p : List String) : List String :=
  d.dirs.filterMap fun q =>
    if p.isPrefixOf q then
      match q.drop p.length with
      | [c] => some c
      | _ => none
    else none

/-- The names of the immediate (non-directory) files of `p`. -/
def childFiles (d : SnapDir) (p : List String) : List String :=
  d.files.filterMap fun kv =>
    if p.isPrefixOf kv.1 then
      match kv.1.drop p.length with
      | [c] => some c
      | _ => none
    else none

/-- The canonical `ReadDir` listing of `p`: subdirectory entries then file
entries.  Theorems about the handlers quantify over arbitrary permutations of
this listing, so nothing depends on this canonical order. -/
def entriesAt (d : SnapDir) (p : List String) : List DirEntry :=
  (childDirs d p).map (fun n => ⟨n, true⟩) ++
    (childFiles d p).map (fun n => ⟨n, false⟩)

/-- Whether `ReadDir` at `p` succeeds: the root always exists once the
snapshot does; any other path must have been created by `MkdirAll`. -/
def dirOk (d : SnapDir) (p : List String) : Bool :=
  p = [] || p ∈ d.dirs

/-- Model of `sort.Strings`: sort ascending by the lexicographic string order. -/
def sortStrings (l : List String) : List String :=
  l.insertionSort (fun a b => a ≤ b)

/-- Model of `strings.TrimSuffix`: drop the suffix when present, else return the
string unchanged. -/
def trimSuffix (s suf : String) : String :=
  if s.endsWith suf then s.dropRight suf.length else s

/-- The result a handler writes: a JSON name list, raw object bytes, icon
bytes with their media type, `404`, or `500`. -/
inductive HResult where
  | okNames (names : List String)
  | okBytes (b : Blob)
  | okIcon (mediaType : String) (data : String)
  | notFound
  | internalError
deriving DecidableEq, Repr

/-- The body of `listPackagesHandler` after `ReadDir` returned `entries`:
keep directories, sort. -/
def listPackagesCore (entries : List DirEntry) : List String :=
  sortStrings ((entries.filter (fun e => e.dir)).map (·.name))

/-- The body of `listPackageSchemasHandler` after `ReadDir` returned
`entries`: keep directories, sort. -/
def listSchemasCore (entries : List DirEntry) : List String :=
  sortStrings ((entries.filter (fun e => e.dir)).map (·.name))

/-- The body of `listObjectsHandler` after `ReadDir` returned `entries`: keep
non-directories, strip the `.json` suffix, sort. -/
def listObjectsCore (entries : List DirEntry) : List String :=
  sortStrings ((entries.filter (fun e => !e.dir)).map
    (fun e => trimSuffix e.name ".json"))

/-- Model of `listPackageSchemasHandler` over a resolved snapshot: `fs.ReadDir(fsys,
packageName)`; *any* `ReadDir` error — including `IsNotExist` for an unknown
package — is written as an internal error (`http.StatusInternalServerError`),
not as not-found. -/
def listPackageSchemasH (d : SnapDir) (pkg : String) : HResult :=
  if dirOk d [pkg] then .okNames (listSchemasCore (entriesAt d [pkg]))
  else .internalError

/-- Model of `listObjectsHandler` over a resolved snapshot: same error mapping as the
schema listing. -/
def listObjectsH (d : SnapDir) (pkg sch : String) : HResult :=
  if dirOk d [pkg, sch] then .okNames (listObjectsCore (entriesAt d [pkg, sch]))
  else .internalError

/-- Model of `getObjectHandler` over a resolved snapshot: `http.ServeFileFS` of
`{package}/{schema}/{name}.json` — the raw bytes, or `404` when the file does
not exist. -/
def getObjectH (d : SnapDir) (pkg sch name : String) : HResult :=
  match lookupFile d [pkg, sch, name ++ ".json"] with
  | some b => .okBytes b
  | none => .notFound

/-- Model of `getPackageIconHandler` over a resolved snapshot: read
`{package}/olm.package/{package}.json` (`404` when absent), unmarshal it
(`500` when malformed), and serve the icon's bytes under its declared media
type (`404` when the unmarshalled package has no icon). -/
def getPackageIconH (d : SnapDir) (pkg : String) : HResult :=
  match lookupFile d [pkg, schemaPackage, pkg ++ ".json"] with
  | none => .notFound
  | some b =>
    match unmarshalPackageIcon b with
    | none => .internalError
    | some none => .notFound
    | some (some ic) => .okIcon ic.mediaType ic.data

/-- One publish attempt: the fresh snapshot directory it writes into, the
decoded records it files there, and the `Last-Modified` timestamp applied by
`Chtimes`. -/
structure Script where
  dir : String
  metas : List Meta
  t : Nat
deriving DecidableEq, Repr

/-- One atomic filesystem operation of a publish: one record write
(`MkdirAll`+`WriteFile`), `Chtimes`, `Symlink` of `next`, or the `Rename` of
`next` onto `active`. -/
inductive PStep where
  | wr (d : String) (m : Meta)
  | chT (d : String) (t : Nat)
  | lnNext (d : String)
  | mvActive
deriving DecidableEq, Repr

/-- The `k`-th operation of a publish, in the program order of
`getCatalogFS`: all record writes, then `Chtimes`, then `Symlink`, then
`Rename`. -/
def stepAt (sc : Script) (k : Nat) : PStep :=
  if h : k < sc.metas.length then .wr sc.dir (sc.metas.get ⟨k, h⟩)
  else if k = sc.metas.length then .chT sc.dir sc.t
  else if k = sc.metas.length + 1 then .lnNext sc.dir
  else .mvActive

/-- The number of operations of a publish. -/
def scriptLen (sc : Script) : Nat := sc.metas.length + 3

/-- One `MkdirAll`+`WriteFile` pair of `writeCatalog`, targeting snapshot
directory `d` (created on first write; a fresh directory's wall-clock mtime is
immaterial and kept abstract as `0`). -/
def wrStep (c : CatalogDir) (d : String) (m : Meta) : CatalogDir :=
  setSnap c d
    { content := applyMeta (((findSnap c d).map (·.content)).getD SnapDir.empty) m
      mtime := ((findSnap c d).map (·.mtime)).getD 0 }

/-- Model of `os.Chtimes` on the snapshot directory: set its mtime; when the directory
does not exist the call fails and changes nothing. -/
def chtStep (c : CatalogDir) (d : String) (t : Nat) : CatalogDir :=
  match findSnap c d with
  | some s => setSnap c d { s with mtime := t }
  | none => c

/-- Model of `os.Symlink(base, nextPath)`: create the `next` link; when `next` already
exists the call fails with `EEXIST` and changes nothing. -/
def lnStep (c : CatalogDir) (d : String) : CatalogDir :=
  match c.next with
  | none => { c with next := some d }
  | some _ => c

/-- Model of `os.Rename(nextPath, activeSymlinkPath)`: atomically move the `next` link
onto `active`; when `next` does not exist the call fails and changes
nothing. -/
def mvStep (c : CatalogDir) : CatalogDir :=
  match c.next with
  | some d => { c with active := some d, next := none }
  | none => c

/-- Execute one atomic operation. -/
def pstep (c : CatalogDir) : PStep → CatalogDir
  | .wr d m => wrStep c d m
  | .chT d t => chtStep c d t
  | .lnNext d => lnStep c d
  | .mvActive => mvStep c

/-- All states reachable from `c0` by interleaving the operations of the
given publishes in any order that respects each publish's own program order.
`cnt i` counts the operations of publish `i` already executed.  (A publish
whose operation failed would in fact stop; allowing it to continue only adds
reachable states, so the invariant proved over this larger set also covers
the real executions.) -/
inductive Reach (scripts : List Script) (c0 : CatalogDir) :
    CatalogDir → (Nat → Nat) → Prop
  | init : Reach scripts c0 c0 (fun _ => 0)
  | step (i : Fin scripts.length) {c : CatalogDir} {cnt : Nat → Nat}
      (hr : Reach scripts c0 c cnt)
      (hlt : cnt i.val < scriptLen (scripts.get i)) :
      Reach scripts c0 (pstep c (stepAt (scripts.get i) (cnt i.val)))
        (Function.update cnt i.val (cnt i.val + 1))

/-- The decomposition state of a publish's snapshot directory after its first
`k` record writes (`none` before the first write creates it). -/
def contentAfter (sc : Script) (k : Nat) : Option SnapDir :=
  writeCatalogFold none (sc.metas.take k)

/-- The inductive invariant of the publish machine: snapshot directories
owned by no publish are untouched; each publish's directory holds exactly the
decomposition of the records it has written so far; `next`, when set, points
to a publish that has finished all its record writes; and `active`, when set,
points either to the untouched pre-existing snapshot or to a publish that has
finished all its record writes. -/
structure PubInv (scripts : List Script) (c0 : CatalogDir) (c : CatalogDir)
    (cnt : Nat → Nat) : Prop where
  frame : ∀ d, (∀ i : Fin scripts.length, (scripts.get i).dir ≠ d) →
    findSnap c d = findSnap c0 d
  snapContents : ∀ i : Fin scripts.length,
    (findSnap c (scripts.get i).dir).map (·.content)
      = contentAfter (scripts.get i) (cnt i.val)
  nextComplete : ∀ d, c.next = some d → ∃ i : Fin scripts.length,
    d = (scripts.get i).dir ∧ (scripts.get i).metas.length ≤ cnt i.val
  activeGood : ∀ a, c.active = some a →
    (c0.active = some a ∧ ∀ i : Fin scripts.length, (scripts.get i).dir ≠ a) ∨
    (∃ i : Fin scripts.length, a = (scripts.get i).dir ∧
      (scripts.get i).metas.length ≤ cnt i.val)

/-- Well-formedness of a family of concurrent publishes on one catalog:
the publishes write into pairwise distinct snapshot directories that do not
exist yet (distinct `Last-Modified` timestamps, fresh directories), each
carries at least one record (a publish with an empty body dies at `Chtimes`
and never reaches its `Symlink`), no `next` link is left over, and the
initial `active` pointer, when present, resolves. -/
structure PubOK (scripts : List Script) (c0 : CatalogDir) : Prop where
  distinct : ∀ i j : Fin scripts.length,
    i ≠ j → (scripts.get i).dir ≠ (scripts.get j).dir
  fresh : ∀ i : Fin scripts.length, findSnap c0 (scripts.get i).dir = none
  nonemptyBody : ∀ i : Fin scripts.length, (scripts.get i).metas ≠ []
  next0 : c0.next = none
  active0 : ∀ a, c0.active = some a → (findSnap c0 a).isSome

/-- A concrete single publish used to witness the atomicity theorem. -/
def w1Script : Script :=
  ⟨"100", [⟨schemaPackage, "", "P", Blob.pkgJson none⟩], 100⟩

/-- An initial catalog directory that has never been published to. -/
def w1c0 : CatalogDir := ⟨[], none, none⟩

/-- The state after running the witness publish to completion, one atomic
operation at a time. -/
def w1end : CatalogDir :=
  pstep (pstep (pstep (pstep w1c0 (stepAt w1Script 0)) (stepAt w1Script 1))
    (stepAt w1Script 2)) (stepAt w1Script 3)

/-- The catalog's active pointer target as stored on disk. -/
def activeTarget (st : St) (name : String) : Option String :=
  (lookupCat st name).bind (fun c => c.active)

/-- A sample record. -/
def mW : Meta := ⟨"olm.bundle", "p", "b", Blob.invalidJson⟩

/-- A sample complete snapshot with mtime 7. -/
def snapW : Snap :=
  ⟨⟨[["p"], ["p", "olm.bundle"]], [(["p", "olm.bundle", "b.json"],
    Blob.invalidJson)]⟩, 7⟩

/-- A catalog directory whose active pointer resolves to `snapW`. -/
def catW : CatalogDir := ⟨[("7", snapW)], some "7", none⟩

/-- A state where catalog `"c"` has a published snapshot on disk but is not
yet tracked by the (empty) eviction cache — e.g. right after a process
restart. -/
def stW : St := ⟨[], [("c", catW)]⟩

/-- A remote source answering an unexpected status. -/
def resp500 : Resp := ⟨500, none, [], false⟩

/-- The constant server answering `500`. -/
def server500 : Req → Option Resp := fun _ => some resp500

/-- A remote source answering `200` with no `Last-Modified` header. -/
def respNoLM : Resp := ⟨200, none, [mW], false⟩

/-- The constant server answering `200` without `Last-Modified`. -/
def serverNoLM : Req → Option Resp := fun _ => some respNoLM

/-- A remote source answering `200` whose record stream breaks after one
decoded record. -/
def respBroken : Resp := ⟨200, some 5, [mW], true⟩

/-- The constant server answering a broken `200` stream. -/
def serverBroken : Req → Option Resp := fun _ => some respBroken

/-- One hundred tracked catalogs, filling the eviction cache to capacity. -/
def lru100 : List LruEntry :=
  (List.range 100).map (fun i => ⟨String.append "b" (toString i), 1000⟩)

/-- A state with a full eviction cache not containing catalog `"A"`, while
`"A"` has a published snapshot on disk (e.g. after a process restart) and the
cache's oldest entry `"b99"` also has an on-disk subtree. -/
def stFull : St := ⟨lru100, [("A", catW), ("b99", ⟨[], none, none⟩)]⟩

/-- A remote source answering `304`. -/
def resp304 : Resp := ⟨304, none, [], false⟩

/-- The constant server answering `304`. -/
def server304 : Req → Option Resp := fun _ => some resp304

/-- A remote source answering `200` with `Last-Modified` denoting time 5 and
a well-formed one-record body. -/
def respOK : Resp := ⟨200, some 5, [mW], false⟩

/-- The constant server answering a well-formed `200`. -/
def serverOK : Req → Option Resp := fun _ => some respOK

/-- The bucket rule exactly as the claim words it (for the refutation): the
record's name when the schema is the package-descriptor schema, otherwise the
record's package field, otherwise `"__global"` when that (package) field is
empty. -/
def bucketClaimed (m : Meta) : String :=
  if m.schema = schemaPackage then m.name
  else if m.package ≠ "" then m.package
  else "__global"

/-- A snapshot holding three package descriptors: one with an icon, one
without, one malformed. -/
def dIcon : SnapDir :=
  ⟨[["P"], ["P", "olm.package"], ["Q"], ["Q", "olm.package"],
    ["R"], ["R", "olm.package"]],
   [(["P", "olm.package", "P.json"],
      Blob.pkgJson (some ⟨"image/svg+xml", "ICON"⟩)),
    (["Q", "olm.package", "Q.json"], Blob.pkgJson none),
    (["R", "olm.package", "R.json"], Blob.invalidJson)]⟩

/-! ## Theorems -/

theorem assoc_find_filter_ne {κ ν : Type} [DecidableEq κ]
    (l : List (κ × ν)) (k x : κ) (h : x ≠ k) :
    (l.filter (fun kv => kv.1 ≠ k)).find? (fun kv => kv.1 = x)
      = l.find? (fun kv => kv.1 = x) := by
  rw [List.find?_filter]
  congr 1
  funext a
  by_cases h2 : a.1 = x
  · have h3 : a.1 ≠ k := by
      rw [h2]
      exact h
    simp [h2, h3, h]
  · simp [h2]

theorem assoc_find_filter_self {κ ν : Type} [DecidableEq κ]
    (l : List (κ × ν)) (k : κ) :
    (l.filter (fun kv => kv.1 ≠ k)).find? (fun kv => kv.1 = k) = none := by
  rw [List.find?_filter]
  refine List.find?_eq_none.mpr ?_
  intro a _
  simp

theorem findSnap_setSnap (c : CatalogDir) (d : String) (s : Snap) (x : String) :
    findSnap (setSnap c d s) x = if x = d then some s else findSnap c x := by
  by_cases h : x = d
  · subst h
    simp [findSnap, setSnap, List.find?]
  · simp only [findSnap, setSnap, h, if_false]
    rw [show ((d, s) :: c.snaps.filter (fun kv => kv.1 ≠ d)).find?
        (fun kv => kv.1 = x)
      = (c.snaps.filter (fun kv => kv.1 ≠ d)).find? (fun kv => kv.1 = x) by
        simp [List.find?, Ne.symm h]]
    rw [assoc_find_filter_ne c.snaps d x h]

theorem lookupCat_setCat (st : St) (n : String) (c : CatalogDir) (x : String) :
    lookupCat (setCat st n c) x = if x = n then some c else lookupCat st x := by
  by_cases h : x = n
  · subst h
    simp [lookupCat, setCat, List.find?]
  · simp only [lookupCat, setCat, h, if_false]
    rw [show ((n, c) :: st.disk.filter (fun kv => kv.1 ≠ n)).find?
        (fun kv => kv.1 = x)
      = (st.disk.filter (fun kv => kv.1 ≠ n)).find? (fun kv => kv.1 = x) by
        simp [List.find?, Ne.symm h]]
    rw [assoc_find_filter_ne st.disk n x h]

theorem lookupFile_writeFile (fsx : List (List String × Blob))
    (p : List String) (b : Blob) (x : List String) :
    ((writeFile p b fsx).find? (fun kv => kv.1 = x)).map (·.2)
      = if x = p then some b
        else (fsx.find? (fun kv => kv.1 = x)).map (·.2) := by
  by_cases h : x = p
  · subst h
    simp [writeFile, List.find?]
  · simp only [writeFile, h, if_false]
    rw [show ((p, b) :: fsx.filter (fun kv => kv.1 ≠ p)).find?
        (fun kv => kv.1 = x)
      = (fsx.filter (fun kv => kv.1 ≠ p)).find? (fun kv => kv.1 = x) by
        simp [List.find?, Ne.symm h]]
    rw [assoc_find_filter_ne fsx p x h]

theorem find_removeCatalog (disk : List (String × CatalogDir)) (k x : String) :
    ((removeCatalog k disk).find? (fun kv => kv.1 = x)).map (·.2)
      = if x = k then none
        else (disk.find? (fun kv => kv.1 = x)).map (·.2) := by
  by_cases h : x = k
  · subst h
    simp [removeCatalog, assoc_find_filter_self]
  · simp only [removeCatalog, h, if_false]
    rw [assoc_find_filter_ne disk k x h]

theorem find?_removeCatalog (disk : List (String × CatalogDir)) (k x : String) :
    (removeCatalog k disk).find? (fun kv => kv.1 = x)
      = if x = k then none else disk.find? (fun kv => kv.1 = x) := by
  by_cases h : x = k
  · subst h
    simp [removeCatalog, assoc_find_filter_self]
  · simp only [removeCatalog, h, if_false]
    exact assoc_find_filter_ne disk k x h

/-- What `lru.Add` can do to the disk: nothing, or run the eviction callback
on one strictly older entry. -/
theorem lruAdd_disk_cases (now : Nat) (n : String) (st : St) :
    (lruAdd now n st).disk = st.disk ∨
    ∃ old : LruEntry, old ∈ st.lru ∧ old.key ≠ n ∧
      (lruAdd now n st).disk = removeCatalog old.key st.disk := by
  unfold lruAdd
  by_cases h : (st.lru.any fun x => x.key = n) = true
  · left
    simp [h]
  · simp only [h, Bool.false_eq_true, if_false]
    by_cases h2 : lruCapacity ≤ st.lru.length
    · have hne : st.lru ≠ [] := by
        intro hnil
        rw [hnil] at h2
        simp only [List.length_nil, lruCapacity] at h2
        omega
      right
      refine ⟨st.lru.getLast hne, List.getLast_mem hne, ?_, ?_⟩
      · intro hk
        have hf : (st.lru.any fun x => x.key = n) = false := by
          revert h
          cases st.lru.any fun x => x.key = n <;> simp
        have := List.any_eq_false.mp hf (st.lru.getLast hne)
          (List.getLast_mem hne)
        simp [hk] at this
      · simp [h2]
    · left
      simp [h2]

/-- Lemma: `lru.Add(n, …)` leaves every catalog's subtree in place or deletes some
catalog other than `n` entirely; in particular it never touches catalog
`n`. -/
theorem lookupCat_lruAdd (now : Nat) (n : String) (st : St) (x : String) :
    lookupCat (lruAdd now n st) x = lookupCat st x ∨
    (x ≠ n ∧ lookupCat (lruAdd now n st) x = none) := by
  rcases lruAdd_disk_cases now n st with h | ⟨old, _, hkey, h⟩
  · left
    unfold lookupCat
    rw [h]
  · by_cases hx : x = old.key
    · right
      refine ⟨by rw [hx]; exact hkey, ?_⟩
      unfold lookupCat
      rw [h, find?_removeCatalog, if_pos hx]
      rfl
    · left
      unfold lookupCat
      rw [h, find?_removeCatalog, if_neg hx]

/-- Lemma: `lru.Add` never touches the added catalog's own on-disk subtree: an
update refreshes recency only, and an insert can evict only an older entry,
whose key differs from the added one. -/
theorem lookupCat_lruAdd_self (now : Nat) (n : String) (st : St) :
    lookupCat (lruAdd now n st) n = lookupCat st n := by
  rcases lookupCat_lruAdd now n st n with h | ⟨hne, _⟩
  · exact h
  · exact absurd rfl hne

theorem fold_remove_keeps_none (l : List LruEntry)
    (d : List (String × CatalogDir)) (k : String)
    (h : d.find? (fun kv => kv.1 = k) = none) :
    (l.foldl (fun acc e => removeCatalog e.key acc) d).find?
      (fun kv => kv.1 = k) = none := by
  induction l generalizing d with
  | nil => exact h
  | cons a l ih =>
    rw [List.foldl_cons]
    apply ih
    rw [find?_removeCatalog]
    by_cases hx : k = a.key
    · rw [if_pos hx]
    · rw [if_neg hx]
      exact h

theorem fold_remove_none (l : List LruEntry) (d : List (String × CatalogDir))
    (k : String) (h : ∃ e ∈ l, e.key = k) :
    (l.foldl (fun acc e => removeCatalog e.key acc) d).find?
      (fun kv => kv.1 = k) = none := by
  induction l generalizing d with
  | nil =>
    rcases h with ⟨e, he, _⟩
    cases he
  | cons a l ih =>
    rw [List.foldl_cons]
    rcases h with ⟨e, he, hk⟩
    rcases List.mem_cons.mp he with rfl | hmem
    · apply fold_remove_keeps_none
      rw [find?_removeCatalog, if_pos hk.symm]
    · exact ih (removeCatalog a.key d) ⟨e, hmem, hk⟩

/-- TTL expiry: once the reaper has run past an entry's deadline, that
catalog's on-disk subtree is gone. -/
theorem lookupCat_purgeExpired_none (now : Nat) (st : St) (e : LruEntry)
    (hmem : e ∈ st.lru) (hexp : e.expiresAt ≤ now) :
    lookupCat (purgeExpired now st) e.key = none := by
  unfold purgeExpired lookupCat
  rw [fold_remove_none]
  · rfl
  · exact ⟨e, List.mem_filter.mpr ⟨hmem, by simpa using hexp⟩, rfl⟩

/-- Decomposing one more record applies one more filing step. -/
theorem writeCatalogFold_append (s : Option SnapDir) (l : List Meta)
    (m : Meta) :
    writeCatalogFold s (l ++ [m])
      = some (applyMeta ((writeCatalogFold s l).getD SnapDir.empty) m) := by
  unfold writeCatalogFold
  rw [List.foldl_append]
  rfl

/-- One more record write advances the decomposition state by one filing. -/
theorem contentAfter_succ (sc : Script) (k : Nat) (h : k < sc.metas.length) :
    contentAfter sc (k + 1)
      = some (applyMeta ((contentAfter sc k).getD SnapDir.empty)
          (sc.metas.get ⟨k, h⟩)) := by
  unfold contentAfter
  rw [List.take_succ]
  have h2 : sc.metas[k]? = some (sc.metas.get ⟨k, h⟩) := by
    rw [List.getElem?_eq_getElem h]
    rfl
  rw [h2]
  exact writeCatalogFold_append none _ _

/-- Once all records are written, the decomposition state is the full one. -/
theorem contentAfter_saturate (sc : Script) (k : Nat)
    (h : sc.metas.length ≤ k) :
    contentAfter sc k = writeCatalogFold none sc.metas := by
  unfold contentAfter
  rw [List.take_of_length_le h]

/-- Decomposition from an existing directory always yields a directory. -/
theorem writeCatalogFold_some_start (x : SnapDir) (l : List Meta) :
    ∃ y, writeCatalogFold (some x) l = some y := by
  induction l generalizing x with
  | nil => exact ⟨x, rfl⟩
  | cons m l ih =>
    show ∃ y, writeCatalogFold (some (applyMeta x m)) l = some y
    exact ih _

/-- Decomposing at least one record creates the snapshot directory. -/
theorem writeCatalogFold_of_ne_nil (l : List Meta) (h : l ≠ []) :
    ∃ y, writeCatalogFold none l = some y := by
  cases l with
  | nil => exact absurd rfl h
  | cons m l =>
    show ∃ y, writeCatalogFold (some (applyMeta SnapDir.empty m)) l = some y
    exact writeCatalogFold_some_start _ _

/-- Bumping one counter never decreases any counter. -/
theorem update_le (cnt : Nat → Nat) (i j : Nat) :
    cnt j ≤ Function.update cnt i (cnt i + 1) j := by
  by_cases h : j = i
  · subst h
    simp
  · rw [Function.update_noteq h]

/-- The invariant holds initially. -/
theorem pubInv_init (scripts : List Script) (c0 : CatalogDir)
    (hok : PubOK scripts c0) :
    PubInv scripts c0 c0 (fun _ => 0) := by
  refine ⟨fun d _ => rfl, ?_, ?_, ?_⟩
  · intro i
    rw [hok.fresh i]
    rfl
  · intro d hd
    rw [hok.next0] at hd
    cases hd
  · intro a ha
    left
    refine ⟨ha, fun i hdir => ?_⟩
    have h1 := hok.active0 a ha
    rw [← hdir, hok.fresh i] at h1
    cases h1

/-- Bumping the counter of a publish that has already finished its record
writes preserves the invariant without any state change. -/
theorem pubInv_bump (scripts : List Script) (c0 c : CatalogDir)
    (cnt : Nat → Nat) (i : Fin scripts.length)
    (hsat : (scripts.get i).metas.length ≤ cnt i.val)
    (hinv : PubInv scripts c0 c cnt) :
    PubInv scripts c0 c (Function.update cnt i.val (cnt i.val + 1)) := by
  refine ⟨hinv.frame, ?_, ?_, ?_⟩
  · intro j
    by_cases hij : j.val = i.val
    · have hji : j = i := Fin.ext hij
      subst hji
      rw [Function.update_same, hinv.snapContents j,
        contentAfter_saturate _ _ hsat,
        contentAfter_saturate _ _ (le_trans hsat (Nat.le_succ _))]
    · rw [Function.update_noteq hij]
      exact hinv.snapContents j
  · intro d hd
    obtain ⟨j, hdir, hle⟩ := hinv.nextComplete d hd
    exact ⟨j, hdir, le_trans hle (update_le cnt i.val j.val)⟩
  · intro a ha
    rcases hinv.activeGood a ha with h | ⟨j, hdir, hle⟩
    · exact Or.inl h
    · exact Or.inr ⟨j, hdir, le_trans hle (update_le cnt i.val j.val)⟩

/-- Every single atomic operation of any publish preserves the invariant. -/
theorem pubInv_step (scripts : List Script) (c0 : CatalogDir)
    (hok : PubOK scripts c0) {c : CatalogDir} {cnt : Nat → Nat}
    (i : Fin scripts.length)
    (hinv : PubInv scripts c0 c cnt) :
    PubInv scripts c0 (pstep c (stepAt (scripts.get i) (cnt i.val)))
      (Function.update cnt i.val (cnt i.val + 1)) := by
  by_cases h1 : cnt i.val < (scripts.get i).metas.length
  · -- one record write into this publish's own snapshot directory
    simp only [stepAt, dif_pos h1, pstep]
    refine ⟨?_, ?_, ?_, ?_⟩
    · intro d hd
      unfold wrStep
      rw [findSnap_setSnap, if_neg (fun heq => (hd i) heq.symm)]
      exact hinv.frame d hd
    · intro j
      by_cases hij : j = i
      · subst hij
        rw [Function.update_same]
        unfold wrStep
        rw [findSnap_setSnap, if_pos rfl]
        simp only [Option.map_some']
        rw [contentAfter_succ (scripts.get j) (cnt j.val) h1,
          hinv.snapContents j]
      · rw [Function.update_noteq (fun h => hij (Fin.ext h))]
        unfold wrStep
        rw [findSnap_setSnap, if_neg (hok.distinct j i hij)]
        exact hinv.snapContents j
    · intro d hd
      obtain ⟨j, hdir, hle⟩ := hinv.nextComplete d hd
      exact ⟨j, hdir, le_trans hle (update_le cnt i.val j.val)⟩
    · intro a ha
      rcases hinv.activeGood a ha with h | ⟨j, hdir, hle⟩
      · exact Or.inl h
      · exact Or.inr ⟨j, hdir, le_trans hle (update_le cnt i.val j.val)⟩
  · have hsat : (scripts.get i).metas.length ≤ cnt i.val := Nat.le_of_not_lt h1
    by_cases h2 : cnt i.val = (scripts.get i).metas.length
    · -- `Chtimes`: content untouched, only the mtime changes
      simp only [stepAt, dif_neg h1, if_pos h2, pstep]
      unfold chtStep
      cases hfs : findSnap c (scripts.get i).dir with
      | none => exact pubInv_bump scripts c0 c cnt i hsat hinv
      | some s =>
        refine ⟨?_, ?_, ?_, ?_⟩
        · intro d hd
          rw [findSnap_setSnap, if_neg (fun heq => (hd i) heq.symm)]
          exact hinv.frame d hd
        · intro j
          by_cases hij : j = i
          · subst hij
            rw [Function.update_same, findSnap_setSnap, if_pos rfl]
            have hprev := hinv.snapContents j
            rw [hfs] at hprev
            simp only [Option.map_some'] at hprev ⊢
            rw [contentAfter_saturate _ _ (le_trans hsat (Nat.le_succ _)),
              ← contentAfter_saturate _ _ hsat]
            exact hprev
          · rw [Function.update_noteq (fun h => hij (Fin.ext h)),
              findSnap_setSnap, if_neg (hok.distinct j i hij)]
            exact hinv.snapContents j
        · intro d hd
          obtain ⟨j, hdir, hle⟩ := hinv.nextComplete d hd
          exact ⟨j, hdir, le_trans hle (update_le cnt i.val j.val)⟩
        · intro a ha
          rcases hinv.activeGood a ha with h | ⟨j, hdir, hle⟩
          · exact Or.inl h
          · exact Or.inr ⟨j, hdir, le_trans hle (update_le cnt i.val j.val)⟩
    · by_cases h3 : cnt i.val = (scripts.get i).metas.length + 1
      · -- `Symlink` of `next`: only succeeds when `next` is free
        simp only [stepAt, dif_neg h1, if_neg h2, if_pos h3, pstep]
        unfold lnStep
        cases hnx : c.next with
        | some d0 => exact pubInv_bump scripts c0 c cnt i hsat hinv
        | none =>
          refine ⟨?_, ?_, ?_, ?_⟩
          · intro d hd
            exact hinv.frame d hd
          · intro j
            by_cases hij : j = i
            · subst hij
              rw [Function.update_same,
                contentAfter_saturate _ _ (le_trans hsat (Nat.le_succ _)),
                ← contentAfter_saturate _ _ hsat]
              exact hinv.snapContents j
            · rw [Function.update_noteq (fun h => hij (Fin.ext h))]
              exact hinv.snapContents j
          · intro d hd
            have hdd : (scripts.get i).dir = d := Option.some.inj hd
            refine ⟨i, hdd.symm, ?_⟩
            rw [Function.update_same]
            omega
          · intro a ha
            rcases hinv.activeGood a ha with h | ⟨j, hdir, hle⟩
            · exact Or.inl h
            · exact Or.inr ⟨j, hdir, le_trans hle (update_le cnt i.val j.val)⟩
      · -- `Rename` of `next` onto `active`
        simp only [stepAt, dif_neg h1, if_neg h2, if_neg h3, pstep]
        unfold mvStep
        cases hnx : c.next with
        | none => exact pubInv_bump scripts c0 c cnt i hsat hinv
        | some d0 =>
          refine ⟨?_, ?_, ?_, ?_⟩
          · intro d hd
            exact hinv.frame d hd
          · intro j
            by_cases hij : j = i
            · subst hij
              rw [Function.update_same,
                contentAfter_saturate _ _ (le_trans hsat (Nat.le_succ _)),
                ← contentAfter_saturate _ _ hsat]
              exact hinv.snapContents j
            · rw [Function.update_noteq (fun h => hij (Fin.ext h))]
              exact hinv.snapContents j
          · intro d hd
            cases hd
          · intro a ha
            have haa : d0 = a := Option.some.inj ha
            obtain ⟨j, hdir, hle⟩ := hinv.nextComplete d0 hnx
            exact Or.inr ⟨j, haa ▸ hdir,
              le_trans hle (update_le cnt i.val j.val)⟩

/-- Every reachable state of the publish machine satisfies the invariant. -/
theorem reach_pubInv (scripts : List Script) (c0 : CatalogDir)
    (hok : PubOK scripts c0) {c : CatalogDir} {cnt : Nat → Nat}
    (hr : Reach scripts c0 c cnt) : PubInv scripts c0 c cnt := by
  induction hr with
  | init => exact pubInv_init scripts c0 hok
  | step i hr hlt ih => exact pubInv_step scripts c0 hok i ih

/-- Claim **C1.**  For every catalog and every sequence of publish steps —
any interleaving of the atomic filesystem operations of any number of
well-formed publish attempts (distinct fresh snapshot directories, at least
one record each) — at every reachable observation point the active pointer
either does not exist or resolves to exactly one complete, fully-decomposed
snapshot directory: either the pre-existing snapshot, byte-for-byte
untouched, or the full decomposition of one publish's record stream.  The
pointer changes only at the single `Rename` step, which each publish performs
after all its record writes. -/
theorem c1_active_pointer_atomicity
    (scripts : List Script) (c0 c : CatalogDir) (cnt : Nat → Nat)
    (hok : PubOK scripts c0)
    (hr : Reach scripts c0 c cnt) :
    ∀ a, c.active = some a → ∃ s, findSnap c a = some s ∧
      (findSnap c0 a = some s ∨
        ∃ i : Fin scripts.length, a = (scripts.get i).dir ∧
          some s.content = writeCatalogFold none (scripts.get i).metas) := by
  intro a ha
  have hinv := reach_pubInv scripts c0 hok hr
  rcases hinv.activeGood a ha with ⟨ha0, hnd⟩ | ⟨i, hdir, hle⟩
  · have hfr := hinv.frame a hnd
    have h1 := hok.active0 a ha0
    cases hfs : findSnap c0 a with
    | none =>
      rw [hfs] at h1
      cases h1
    | some s =>
      refine ⟨s, ?_, Or.inl rfl⟩
      rw [hfr, hfs]
  · obtain ⟨y, hy⟩ := writeCatalogFold_of_ne_nil _ (hok.nonemptyBody i)
    have hsc := hinv.snapContents i
    rw [contentAfter_saturate _ _ hle, hy, ← hdir] at hsc
    cases hfs : findSnap c a with
    | none =>
      rw [hfs] at hsc
      cases hsc
    | some s =>
      rw [hfs] at hsc
      simp only [Option.map_some'] at hsc
      refine ⟨s, rfl, Or.inr ⟨i, hdir, ?_⟩⟩
      rw [hy]
      exact hsc

/-- Witness for the atomicity theorem: one concrete publish run to
completion, one atomic operation at a time, from a never-published state. -/
theorem c1_witness :
    ∃ s, findSnap w1end "100" = some s ∧
      (findSnap w1c0 "100" = some s ∨
        ∃ i : Fin ([w1Script].length),
          "100" = ([w1Script].get i).dir ∧
          some s.content = writeCatalogFold none ([w1Script].get i).metas) := by
  have hok : PubOK [w1Script] w1c0 := by
    refine ⟨?_, ?_, ?_, rfl, ?_⟩
    · intro i j hij
      have hi := i.isLt
      have hj := j.isLt
      simp only [List.length_singleton] at hi hj
      exact absurd (Fin.ext (by omega)) hij
    · intro i
      rfl
    · intro i
      rw [List.get_singleton]
      decide
    · intro a ha
      cases ha
  have hr0 : Reach [w1Script] w1c0 w1c0 (fun _ => 0) := Reach.init
  have hr1 := hr0.step ⟨0, by decide⟩
    (by simp [Function.update, scriptLen, w1Script, List.get_singleton])
  have hr2 := hr1.step ⟨0, by decide⟩
    (by simp [Function.update, scriptLen, w1Script, List.get_singleton])
  have hr3 := hr2.step ⟨0, by decide⟩
    (by simp [Function.update, scriptLen, w1Script, List.get_singleton])
  have hr4 := hr3.step ⟨0, by decide⟩
    (by simp [Function.update, scriptLen, w1Script, List.get_singleton])
  exact c1_active_pointer_atomicity [w1Script] w1c0 w1end _ hok hr4 "100"
    (by decide)

/-- The active stat of the added catalog is unchanged by the LRU touch. -/
theorem statActive_lruAdd_self (now : Nat) (n : String) (st : St) :
    statActive (lruAdd now n st) n = statActive st n := by
  unfold statActive
  rw [lookupCat_lruAdd_self]

/-- When `httpClient.Do` fails, the transport error is returned. -/
theorem getCatalogFS_transport (now : Nat) (name : String)
    (server : Req → Option Resp) (st : St)
    (h : server (requestFor (lruAdd now name st) name) = none) :
    getCatalogFS now name server st
      = ((none, some GoErr.transport), lruAdd now name st) := by
  simp only [getCatalogFS, h]

/-- The `304` branch of `getCatalogFS` (source lines 64–66). -/
theorem getCatalogFS_304 (now : Nat) (name : String)
    (server : Req → Option Resp) (st : St) (resp : Resp)
    (hresp : server (requestFor (lruAdd now name st) name) = some resp)
    (h : resp.status = 304) :
    getCatalogFS now name server st
      = ((some ⟨["clustercatalogs", name, "active"]⟩, none),
          lruAdd now name st) := by
  simp only [getCatalogFS, hresp]
  rw [if_pos h]

/-- The unexpected-status branch of `getCatalogFS` (source lines 67–69):
`return nil, err` with the stale, nil `err`. -/
theorem getCatalogFS_badStatus (now : Nat) (name : String)
    (server : Req → Option Resp) (st : St) (resp : Resp)
    (hresp : server (requestFor (lruAdd now name st) name) = some resp)
    (h304 : resp.status ≠ 304) (h200 : resp.status ≠ 200) :
    getCatalogFS now name server st = ((none, none), lruAdd now name st) := by
  simp only [getCatalogFS, hresp]
  rw [if_neg h304, if_pos h200]

/-- The `Last-Modified` parse-failure branch of `getCatalogFS` (source lines
71–74). -/
theorem getCatalogFS_parseTime (now : Nat) (name : String)
    (server : Req → Option Resp) (st : St) (resp : Resp)
    (hresp : server (requestFor (lruAdd now name st) name) = some resp)
    (h304 : resp.status ≠ 304) (h200 : resp.status = 200)
    (hlm : resp.lastModified = none) :
    getCatalogFS now name server st
      = ((none, some GoErr.parseTime), lruAdd now name st) := by
  simp only [getCatalogFS, hresp]
  rw [if_neg h304, if_neg (by rw [h200]; exact fun hc => hc rfl), hlm]

/-- The `200` branch of `getCatalogFS` delegates to the publish path. -/
theorem getCatalogFS_200 (now : Nat) (name : String)
    (server : Req → Option Resp) (st : St) (resp : Resp) (t : Nat)
    (hresp : server (requestFor (lruAdd now name st) name) = some resp)
    (h304 : resp.status ≠ 304) (h200 : resp.status = 200)
    (hlm : resp.lastModified = some t) :
    getCatalogFS now name server st
      = publish200 now name (lruAdd now name st) t resp.body
          resp.bodyBroken := by
  simp only [getCatalogFS, hresp]
  rw [if_neg h304, if_neg (by rw [h200]; exact fun hc => hc rfl), hlm]

/-- Claim **C10.**  For a `200` response whose `Last-Modified` header is absent or
unparseable, `getCatalogFS` returns a non-nil error (`http.ParseTime` fails)
before any disk write to the requested catalog: no snapshot directory is
created, no record is filed, the active pointer is untouched, and no fallback
view is returned. -/
theorem c10_parse_failure (now : Nat) (name : String)
    (server : Req → Option Resp) (st : St) (resp : Resp)
    (hresp : server (requestFor (lruAdd now name st) name) = some resp)
    (h200 : resp.status = 200) (hlm : resp.lastModified = none) :
    (getCatalogFS now name server st).1 = (none, some GoErr.parseTime) ∧
    lookupCat (getCatalogFS now name server st).2 name = lookupCat st name := by
  have h304 : resp.status ≠ 304 := by
    rw [h200]
    decide
  rw [getCatalogFS_parseTime now name server st resp hresp h304 h200 hlm]
  exact ⟨rfl, lookupCat_lruAdd_self now name st⟩

/-- Witness for the parse-failure theorem at a concrete state and server. -/
theorem c10_witness :
    (getCatalogFS 0 "c" serverNoLM stW).1 = (none, some GoErr.parseTime) ∧
    lookupCat (getCatalogFS 0 "c" serverNoLM stW).2 "c" = lookupCat stW "c" :=
  c10_parse_failure 0 "c" serverNoLM stW respNoLM rfl rfl rfl

/-- Claim **C3 (counterexample).**  The claim says an unexpected HTTP status is
surfaced as a non-nil error.  In the code the returned `err` variable is
provably nil at that return (`return nil, err` after a successful
`httpClient.Do`), so the call yields `(nil, nil)`: here a `500` response on a
state with a published snapshot produces a nil error and a nil view. -/
theorem c3_counterexample :
    server500 (requestFor (lruAdd 0 "c" stW) "c") = some resp500 ∧
    resp500.status ≠ 200 ∧ resp500.status ≠ 304 ∧
    (getCatalogFS 0 "c" server500 stW).1.2 = none ∧
    (getCatalogFS 0 "c" server500 stW).1.1 = none := by
  decide

/-- Claim **C3 (amended).**  For a response whose status is neither `200` nor
`304`, `getCatalogFS` returns a nil view together with a *nil* error (the
stale `err` variable), and performs no disk mutation on the requested
catalog; the only possible disk change during the call is the eviction-cache
registration deleting some other catalog's subtree. -/
theorem c3_amended_bad_status_nil_error (now : Nat) (name : String)
    (server : Req → Option Resp) (st : St) (resp : Resp)
    (hresp : server (requestFor (lruAdd now name st) name) = some resp)
    (h304 : resp.status ≠ 304) (h200 : resp.status ≠ 200) :
    (getCatalogFS now name server st).1 = (none, none) ∧
    lookupCat (getCatalogFS now name server st).2 name = lookupCat st name ∧
    ∀ k, lookupCat (getCatalogFS now name server st).2 k = lookupCat st k ∨
      lookupCat (getCatalogFS now name server st).2 k = none := by
  rw [getCatalogFS_badStatus now name server st resp hresp h304 h200]
  refine ⟨rfl, lookupCat_lruAdd_self now name st, fun k => ?_⟩
  rcases lookupCat_lruAdd now name st k with h | ⟨_, h⟩
  · exact Or.inl h
  · exact Or.inr h

/-- Witness for the amended unexpected-status theorem. -/
theorem c3_witness :
    (getCatalogFS 0 "c" server500 stW).1 = (none, none) ∧
    lookupCat (getCatalogFS 0 "c" server500 stW).2 "c" = lookupCat stW "c" ∧
    ∀ k, lookupCat (getCatalogFS 0 "c" server500 stW).2 k = lookupCat stW k ∨
      lookupCat (getCatalogFS 0 "c" server500 stW).2 k = none :=
  c3_amended_bad_status_nil_error 0 "c" server500 stW resp500 rfl
    (by decide) (by decide)

/-- Claim **C2 (counterexample).**  The claim says a failed refresh on a catalog
with a published snapshot returns a view over the previous active snapshot.
Here such a catalog exists (`statActive` resolves), the refresh fails with
status `500`, and the call returns *no* view at all. -/
theorem c2_counterexample :
    statActive stW "c" = some snapW ∧
    server500 (requestFor (lruAdd 0 "c" stW) "c") = some resp500 ∧
    resp500.status ≠ 200 ∧ resp500.status ≠ 304 ∧
    (getCatalogFS 0 "c" server500 stW).1.1 = none := by
  decide

/-- Claim **C2 (amended).**  A failed refresh leaves the previous active pointer
untouched on disk (later calls can still serve it), but the failing call
itself returns no fallback view, whether or not an active pointer exists: an
unexpected status yields a nil view with a nil error, and a decode failure
during a `200` refresh yields a nil view with a non-nil error (any partial
writes stay in the not-yet-linked snapshot directory). -/
theorem c2_amended_failure_returns_no_fallback (now : Nat) (name : String)
    (server : Req → Option Resp) (st : St) (resp : Resp)
    (hresp : server (requestFor (lruAdd now name st) name) = some resp) :
    (resp.status ≠ 304 → resp.status ≠ 200 →
      (getCatalogFS now name server st).1 = (none, none) ∧
      statActive (getCatalogFS now name server st).2 name
        = statActive st name) ∧
    (resp.status = 200 → resp.bodyBroken = true →
      (getCatalogFS now name server st).1.1 = none ∧
      (getCatalogFS now name server st).1.2 ≠ none ∧
      activeTarget (getCatalogFS now name server st).2 name
        = activeTarget st name) := by
  constructor
  · intro h304 h200
    rw [getCatalogFS_badStatus now name server st resp hresp h304 h200]
    exact ⟨rfl, statActive_lruAdd_self now name st⟩
  · intro h200 hbb
    have h304 : resp.status ≠ 304 := by
      rw [h200]
      decide
    cases hlm : resp.lastModified with
    | none =>
      rw [getCatalogFS_parseTime now name server st resp hresp h304 h200 hlm]
      refine ⟨rfl, by simp, ?_⟩
      unfold activeTarget
      rw [lookupCat_lruAdd_self]
    | some t =>
      rw [getCatalogFS_200 now name server st resp t hresp h304 h200 hlm]
      simp only [publish200]
      split
      · rw [if_pos hbb]
        refine ⟨rfl, by simp, ?_⟩
        unfold activeTarget
        rw [lookupCat_lruAdd_self]
      · rw [if_pos hbb]
        refine ⟨rfl, by simp, ?_⟩
        unfold activeTarget
        rw [lookupCat_setCat, if_pos rfl, ← lookupCat_lruAdd_self now name st]
        cases hc : lookupCat (lruAdd now name st) name with
        | none => simp [setSnap]
        | some c => simp [setSnap]

/-- Witness for the amended no-fallback theorem, exercising both the
unexpected-status clause and the decode-failure clause. -/
theorem c2_witness :
    ((getCatalogFS 0 "c" server500 stW).1 = (none, none) ∧
      statActive (getCatalogFS 0 "c" server500 stW).2 "c"
        = statActive stW "c") ∧
    ((getCatalogFS 0 "c" serverBroken stW).1.1 = none ∧
      (getCatalogFS 0 "c" serverBroken stW).1.2 ≠ none ∧
      activeTarget (getCatalogFS 0 "c" serverBroken stW).2 "c"
        = activeTarget stW "c") :=
  ⟨(c2_amended_failure_returns_no_fallback 0 "c" server500 stW resp500
      rfl).1 (by decide) (by decide),
   (c2_amended_failure_returns_no_fallback 0 "c" serverBroken stW respBroken
      rfl).2 rfl rfl⟩

/-- Claim **C5 (counterexample).**  The claim says a call receiving `304` performs
no filesystem write of any kind.  But `getCatalogFS` registers the catalog in
the eviction cache *before* the request, and that registration runs the
deletion callback synchronously when it displaces the oldest entry: on a full
cache, this call receives `304` yet catalog `"b99"`'s subtree is removed from
disk during it. -/
theorem c5_counterexample :
    server304 (requestFor (lruAdd 0 "A" stFull) "A") = some resp304 ∧
    resp304.status = 304 ∧
    (getCatalogFS 0 "A" server304 stFull).2.disk ≠ stFull.disk ∧
    lookupCat (getCatalogFS 0 "A" server304 stFull).2 "b99" = none ∧
    lookupCat stFull "b99" = some ⟨[], none, none⟩ := by
  decide

/-- Claim **C5 (amended).**  A call receiving `304` returns a view rooted at the
`active` symlink with a nil error and performs no write to the requested
catalog's subtree (its active pointer and snapshot content are unchanged);
the only possible write during the call is the eviction-cache registration
deleting some *other* catalog's subtree. -/
theorem c5_amended_304_fast_path (now : Nat) (name : String)
    (server : Req → Option Resp) (st : St) (resp : Resp)
    (hresp : server (requestFor (lruAdd now name st) name) = some resp)
    (h304 : resp.status = 304) :
    (getCatalogFS now name server st).1
      = (some ⟨["clustercatalogs", name, "active"]⟩, none) ∧
    lookupCat (getCatalogFS now name server st).2 name = lookupCat st name ∧
    statActive (getCatalogFS now name server st).2 name = statActive st name ∧
    ∀ k, lookupCat (getCatalogFS now name server st).2 k = lookupCat st k ∨
      lookupCat (getCatalogFS now name server st).2 k = none := by
  rw [getCatalogFS_304 now name server st resp hresp h304]
  refine ⟨rfl, lookupCat_lruAdd_self now name st,
    statActive_lruAdd_self now name st, fun k => ?_⟩
  rcases lookupCat_lruAdd now name st k with h | ⟨_, h⟩
  · exact Or.inl h
  · exact Or.inr h

/-- Witness for the amended `304` fast-path theorem. -/
theorem c5_witness :
    (getCatalogFS 3 "c" server304 stW).1
      = (some ⟨["clustercatalogs", "c", "active"]⟩, none) ∧
    lookupCat (getCatalogFS 3 "c" server304 stW).2 "c" = lookupCat stW "c" ∧
    statActive (getCatalogFS 3 "c" server304 stW).2 "c"
      = statActive stW "c" ∧
    ∀ k, lookupCat (getCatalogFS 3 "c" server304 stW).2 k = lookupCat stW k ∨
      lookupCat (getCatalogFS 3 "c" server304 stW).2 k = none :=
  c5_amended_304_fast_path 3 "c" server304 stW resp304 rfl rfl

/-- Claim **C4.**  After a successful negotiation that ended with `200` and
`Last-Modified: T`, the new active snapshot directory's mtime is `T` — the
parsed header value, not the wall clock — and the next negotiation for that
catalog re-reads `T` from the active snapshot's mtime and sends
`If-Modified-Since: T`. -/
theorem c4_freshness_roundtrip (now : Nat) (name : String)
    (server : Req → Option Resp) (st : St) (resp : Resp) (t : Nat)
    (hresp : server (requestFor (lruAdd now name st) name) = some resp)
    (h200 : resp.status = 200) (hlm : resp.lastModified = some t)
    (hsucc : (getCatalogFS now name server st).1.2 = none) :
    (∃ snap, statActive (getCatalogFS now name server st).2 name = some snap ∧
      snap.mtime = t) ∧
    ∀ now2, requestFor (lruAdd now2 name (getCatalogFS now name server st).2)
      name = ⟨name, some t⟩ := by
  have h304 : resp.status ≠ 304 := by
    rw [h200]
    decide
  rw [getCatalogFS_200 now name server st resp t hresp h304 h200 hlm]
    at hsucc ⊢
  simp only [publish200] at hsucc ⊢
  cases hw : writeCatalogFold (Option.map (fun x => x.content)
      (findSnap ((lookupCat (lruAdd now name st) name).getD
        ⟨[], none, none⟩) (fmtSnapshotDir t))) resp.body with
  | none =>
    -- `writeCatalogFold` produced no directory: both outcomes are errors
    simp only [hw] at hsucc
    split at hsucc <;> simp at hsucc
  | some written =>
    simp only [hw] at hsucc ⊢
    by_cases hbb : resp.bodyBroken = true
    · rw [if_pos hbb] at hsucc
      simp at hsucc
    · rw [if_neg hbb] at hsucc ⊢
      split at hsucc
      · simp at hsucc
      · rename_i hnx
        rw [if_neg hnx]
        constructor
        · refine ⟨⟨written, t⟩, ?_, rfl⟩
          simp [statActive, lookupCat_setCat, setSnap, findSnap, List.find?]
        · intro now2
          unfold requestFor
          rw [statActive_lruAdd_self]
          simp [statActive, lookupCat_setCat, setSnap, findSnap, List.find?]

/-- Witness for the freshness round-trip: wall clock 99, `Last-Modified`
time 5; the published snapshot's mtime is 5 and the next request carries 5. -/
theorem c4_witness :
    (∃ snap, statActive (getCatalogFS 99 "c" serverOK stW).2 "c" = some snap ∧
      snap.mtime = 5) ∧
    ∀ now2, requestFor (lruAdd now2 "c" (getCatalogFS 99 "c" serverOK stW).2)
      "c" = ⟨"c", some 5⟩ :=
  c4_freshness_roundtrip 99 "c" serverOK stW respOK 5 rfl rfl rfl (by decide)

/-- Claim **C7.**  When a tracked catalog is evicted — displaced as the oldest
entry of the capacity-full cache by an `Add` of a new key, or removed by the
TTL reaper — the deletion callback removes its entire on-disk subtree, and
the next negotiation for it finds no active pointer, attaches no
`If-Modified-Since` header, and therefore performs a full, non-conditional
fetch. -/
theorem c7_eviction_then_full_fetch (st : St) (now now2 now3 : Nat)
    (name : String) (e : LruEntry) :
    (lruCapacity ≤ st.lru.length →
      (st.lru.any fun x => x.key = name) = false →
      st.lru.getLast? = some e →
      lookupCat (lruAdd now name st) e.key = none ∧
      (requestFor (lruAdd now2 e.key (lruAdd now name st))
        e.key).ifModifiedSince = none) ∧
    (e ∈ st.lru → e.expiresAt ≤ now3 →
      lookupCat (purgeExpired now3 st) e.key = none ∧
      (requestFor (lruAdd now2 e.key (purgeExpired now3 st))
        e.key).ifModifiedSince = none) := by
  constructor
  · intro hfull habs hlast
    have hne : st.lru ≠ [] := by
      intro h0
      rw [h0] at hlast
      cases hlast
    have hekey : st.lru.getLast hne = e := by
      rw [List.getLast?_eq_getLast st.lru hne] at hlast
      exact Option.some.inj hlast
    have hdisk : (lruAdd now name st).disk = removeCatalog e.key st.disk := by
      unfold lruAdd
      simp only [habs, Bool.false_eq_true, if_false]
      rw [dif_pos hfull, hekey]
    have hnone : lookupCat (lruAdd now name st) e.key = none := by
      unfold lookupCat
      rw [hdisk, find?_removeCatalog, if_pos rfl]
      rfl
    refine ⟨hnone, ?_⟩
    unfold requestFor
    rw [statActive_lruAdd_self]
    unfold statActive
    rw [hnone]
    rfl
  · intro hmem hexp
    have hnone := lookupCat_purgeExpired_none now3 st e hmem hexp
    refine ⟨hnone, ?_⟩
    unfold requestFor
    rw [statActive_lruAdd_self]
    unfold statActive
    rw [hnone]
    rfl

/-- Witness for both eviction modes on the concrete full-cache state. -/
theorem c7_witness :
    (lookupCat (lruAdd 0 "A" stFull) "b99" = none ∧
      (requestFor (lruAdd 1 "b99" (lruAdd 0 "A" stFull))
        "b99").ifModifiedSince = none) ∧
    (lookupCat (purgeExpired 2000 stFull) "b99" = none ∧
      (requestFor (lruAdd 1 "b99" (purgeExpired 2000 stFull))
        "b99").ifModifiedSince = none) :=
  ⟨(c7_eviction_then_full_fetch stFull 0 1 2000 "A" ⟨"b99", 1000⟩).1
      (by decide) (by decide) (by decide),
   (c7_eviction_then_full_fetch stFull 0 1 2000 "A" ⟨"b99", 1000⟩).2
      (by decide) (by decide)⟩

/-- Claim **C6 (counterexample).**  A package-descriptor record with an empty name
(representable: the decoder requires only a non-empty schema) is filed by the
code under `__global` — the empty-default applies to the *selected* value,
after the name override — while the claim's rule puts it under its (empty)
name: no file exists at the claim's coordinates. -/
theorem c6_counterexample :
    bucketClaimed ⟨schemaPackage, "", "", Blob.invalidJson⟩ = "" ∧
    bucketOf ⟨schemaPackage, "", "", Blob.invalidJson⟩ = "__global" ∧
    lookupFile ((writeCatalogFold none
        [⟨schemaPackage, "", "", Blob.invalidJson⟩]).getD SnapDir.empty)
      [bucketClaimed ⟨schemaPackage, "", "", Blob.invalidJson⟩,
        schemaPackage, ".json"] = none ∧
    lookupFile ((writeCatalogFold none
        [⟨schemaPackage, "", "", Blob.invalidJson⟩]).getD SnapDir.empty)
      ["__global", schemaPackage, ".json"] = some Blob.invalidJson := by
  decide

/-- Filing one record writes exactly its own path, preserving all others. -/
theorem lookupFile_applyMeta (s : SnapDir) (m : Meta) (p : List String) :
    lookupFile (applyMeta s m) p
      = if p = filePathOf m then some m.blob else lookupFile s p := by
  unfold applyMeta lookupFile
  exact lookupFile_writeFile s.files (filePathOf m) m.blob p

/-- The content at any path of a decomposed stream is the blob of the last
record filed there, else whatever the starting directory held. -/
theorem lookupFile_writeCatalogFold (metas : List Meta)
    (start : Option SnapDir) (p : List String) :
    lookupFile ((writeCatalogFold start metas).getD SnapDir.empty) p
      = Option.or
          ((metas.reverse.find? (fun m => filePathOf m = p)).map (·.blob))
          (lookupFile (start.getD SnapDir.empty) p) := by
  induction metas generalizing start with
  | nil => simp [writeCatalogFold]
  | cons m ms ih =>
    show lookupFile ((writeCatalogFold
        (some (applyMeta (start.getD SnapDir.empty) m)) ms).getD
          SnapDir.empty) p = _
    rw [ih]
    simp only [Option.getD_some, lookupFile_applyMeta,
      List.reverse_cons, List.find?_append]
    cases hf : ms.reverse.find? (fun m2 => decide (filePathOf m2 = p)) with
    | some m2 => rfl
    | none =>
      simp only [Option.map_none', Option.or, List.find?]
      by_cases hp : p = filePathOf m
      · rw [if_pos hp]
        have : (decide (filePathOf m = p)) = true := by
          rw [hp]
          simp
        rw [this]
        rfl
      · rw [if_neg hp]
        have : (decide (filePathOf m = p)) = false := by
          simp
          exact fun hc => hp hc.symm
        rw [this]
        rfl

/-- Claim **C6 (amended).**  `writeCatalog` files each record's content bytes at
`{snapshot}/{bucket}/{schema}/{name}.json`, overwriting any existing file,
where the bucket is the record's name when the schema is the
package-descriptor schema and its package field otherwise, with `__global`
substituted when the *selected* value is empty: the content found at any path
of the decomposed snapshot is the blob of the last record filed there, and
the bucket selector satisfies exactly that amended rule. -/
theorem c6_filing_rule (metas : List Meta) (p : List String) :
    lookupFile ((writeCatalogFold none metas).getD SnapDir.empty) p
      = ((metas.reverse.find? (fun m => filePathOf m = p)).map (·.blob)) ∧
    ∀ m : Meta, filePathOf m
      = [(if (if m.schema = schemaPackage then m.name else m.package) = ""
          then "__global"
          else if m.schema = schemaPackage then m.name else m.package),
         m.schema, m.name ++ ".json"] := by
  constructor
  · rw [lookupFile_writeCatalogFold metas none p]
    cases (metas.reverse.find? (fun m => filePathOf m = p)).map (·.blob) with
    | none => rfl
    | some b => rfl
  · intro m
    unfold filePathOf bucketOf
    rfl

/-- Claim **C8 (counterexample).**  The claim says every query naming a
nonexistent package or schema yields a not-found result, but the schema and
object listings map the `ReadDir` failure — including `IsNotExist` — to an
internal error (`http.Error(w, …, http.StatusInternalServerError)`), not to
not-found. -/
theorem c8_counterexample :
    listPackageSchemasH SnapDir.empty "p" = HResult.internalError ∧
    listObjectsH SnapDir.empty "p" "s" = HResult.internalError ∧
    HResult.internalError ≠ HResult.notFound := by
  decide

/-- Claim **C8 (amended).**  Get-object yields not-found for a missing object
file; list-schemas and list-objects on a nonexistent package or schema yield
an *internal error* instead of not-found; the icon operation yields not-found
both when the descriptor file is absent and when an unmarshalled descriptor
carries no icon, returns exactly the declared media type and bytes when an
icon is present, and yields an internal error when the descriptor is
malformed JSON. -/
theorem c8_not_found_behavior (d : SnapDir) (pkg sch nm : String) :
    (lookupFile d [pkg, sch, nm ++ ".json"] = none →
      getObjectH d pkg sch nm = HResult.notFound) ∧
    (dirOk d [pkg] = false →
      listPackageSchemasH d pkg = HResult.internalError) ∧
    (dirOk d [pkg, sch] = false →
      listObjectsH d pkg sch = HResult.internalError) ∧
    (lookupFile d [pkg, schemaPackage, pkg ++ ".json"] = none →
      getPackageIconH d pkg = HResult.notFound) ∧
    (∀ ic : Option Icon,
      lookupFile d [pkg, schemaPackage, pkg ++ ".json"]
          = some (Blob.pkgJson ic) →
      getPackageIconH d pkg = (match ic with
        | none => HResult.notFound
        | some i => HResult.okIcon i.mediaType i.data)) ∧
    (lookupFile d [pkg, schemaPackage, pkg ++ ".json"]
        = some Blob.invalidJson →
      getPackageIconH d pkg = HResult.internalError) := by
  refine ⟨?_, ?_, ?_, ?_, ?_, ?_⟩
  · intro h
    unfold getObjectH
    rw [h]
  · intro h
    simp [listPackageSchemasH, h]
  · intro h
    simp [listObjectsH, h]
  · intro h
    unfold getPackageIconH
    rw [h]
  · intro ic h
    unfold getPackageIconH
    rw [h]
    cases ic <;> rfl
  · intro h
    unfold getPackageIconH
    rw [h]
    rfl

/-- Witness for the amended query-layer error behavior over a concrete
snapshot with three package descriptors. -/
theorem c8_witness :
    getObjectH dIcon "X" "s" "n" = HResult.notFound ∧
    listPackageSchemasH dIcon "X" = HResult.internalError ∧
    listObjectsH dIcon "X" "s" = HResult.internalError ∧
    getPackageIconH dIcon "X" = HResult.notFound ∧
    getPackageIconH dIcon "Q" = HResult.notFound ∧
    getPackageIconH dIcon "P" = HResult.okIcon "image/svg+xml" "ICON" ∧
    getPackageIconH dIcon "R" = HResult.internalError :=
  ⟨(c8_not_found_behavior dIcon "X" "s" "n").1 (by decide),
   (c8_not_found_behavior dIcon "X" "s" "n").2.1 (by decide),
   (c8_not_found_behavior dIcon "X" "s" "n").2.2.1 (by decide),
   (c8_not_found_behavior dIcon "X" "s" "n").2.2.2.1 (by decide),
   (c8_not_found_behavior dIcon "Q" "s" "n").2.2.2.2.1 none (by decide),
   (c8_not_found_behavior dIcon "P" "s" "n").2.2.2.2.1
     (some ⟨"image/svg+xml", "ICON"⟩) (by decide),
   (c8_not_found_behavior dIcon "R" "s" "n").2.2.2.2.2 (by decide)⟩

/-- Lemma: `sort.Strings` output is sorted. -/
theorem sortStrings_sorted (l : List String) :
    List.Sorted (fun a b => a ≤ b) (sortStrings l) :=
  List.sorted_insertionSort _ l

/-- Sorting is invariant under permutation of the input. -/
theorem sortStrings_eq_of_perm (l1 l2 : List String) (h : l1.Perm l2) :
    sortStrings l1 = sortStrings l2 :=
  List.eq_of_perm_of_sorted
    ((List.perm_insertionSort _ l1).trans
      (h.trans (List.perm_insertionSort _ l2).symm))
    (sortStrings_sorted l1) (sortStrings_sorted l2)

/-- The handler's directory filter over a listing recovers exactly the
subdirectory names. -/
theorem entriesAt_filter_dir (d : SnapDir) (p : List String) :
    (((entriesAt d p).filter (fun e => e.dir)).map (·.name))
      = childDirs d p := by
  unfold entriesAt
  rw [List.filter_append]
  have h1 : ((childDirs d p).map (fun n => (⟨n, true⟩ : DirEntry))).filter
      (fun e => e.dir) = (childDirs d p).map (fun n => ⟨n, true⟩) := by
    apply List.filter_eq_self.mpr
    intro a ha
    rcases List.mem_map.mp ha with ⟨n, _, rfl⟩
    rfl
  have h2 : ((childFiles d p).map (fun n => (⟨n, false⟩ : DirEntry))).filter
      (fun e => e.dir) = [] := by
    rw [List.filter_eq_nil]
    intro a ha
    rcases List.mem_map.mp ha with ⟨n, _, rfl⟩
    simp
  rw [h1, h2, List.append_nil, List.map_map]
  have h3 : ((fun (e : DirEntry) => e.name) ∘ fun n => (⟨n, true⟩ : DirEntry))
      = id := rfl
  rw [h3, List.map_id]

/-- The handler's non-directory filter plus `.json`-stripping over a listing
recovers exactly the trimmed file names. -/
theorem entriesAt_filter_file (d : SnapDir) (p : List String) :
    (((entriesAt d p).filter (fun e => !e.dir)).map
        (fun e => trimSuffix e.name ".json"))
      = (childFiles d p).map (fun n => trimSuffix n ".json") := by
  unfold entriesAt
  rw [List.filter_append]
  have h1 : ((childDirs d p).map (fun n => (⟨n, true⟩ : DirEntry))).filter
      (fun e => !e.dir) = [] := by
    rw [List.filter_eq_nil]
    intro a ha
    rcases List.mem_map.mp ha with ⟨n, _, rfl⟩
    simp
  have h2 : ((childFiles d p).map (fun n => (⟨n, false⟩ : DirEntry))).filter
      (fun e => !e.dir) = (childFiles d p).map (fun n => ⟨n, false⟩) := by
    apply List.filter_eq_self.mpr
    intro a ha
    rcases List.mem_map.mp ha with ⟨n, _, rfl⟩
    rfl
  rw [h1, h2, List.nil_append]
  have h3 : ∀ l : List String,
      (l.map (fun n => (⟨n, false⟩ : DirEntry))).map
          (fun e => trimSuffix e.name ".json")
        = l.map (fun n => trimSuffix n ".json") := by
    intro l
    induction l with
    | nil => rfl
    | cons a l ih => simp only [List.map_cons, ih]
  exact h3 (childFiles d p)

/-- A name is a root child directory exactly when the snapshot tree holds it
as a top-level directory. -/
theorem mem_childDirs_root (d : SnapDir) (x : String) :
    x ∈ childDirs d [] ↔ [x] ∈ d.dirs := by
  unfold childDirs
  rw [List.mem_filterMap]
  constructor
  · rintro ⟨q, hq, hfq⟩
    rw [if_pos (by simp)] at hfq
    simp only [List.length_nil, List.drop_zero] at hfq
    cases q with
    | nil => cases hfq
    | cons c q2 =>
      cases q2 with
      | nil =>
        have hcx : c = x := Option.some.inj hfq
        rw [← hcx]
        exact hq
      | cons _ _ => cases hfq
  · intro hx
    refine ⟨[x], hx, ?_⟩
    rw [if_pos (by simp)]
    simp only [List.length_nil, List.drop_zero]

/-- Claim **C9.**  Regardless of the underlying directory enumeration order (any
permutation of the canonical `ReadDir` listing), list-packages returns
exactly the names of the top-level directories of the snapshot root sorted
lexicographically, and list-objects returns exactly the names of the
non-directory entries of `{snapshot}/{package}/{schema}` with the `.json`
suffix stripped, sorted lexicographically. -/
theorem c9_sorted_listings (d : SnapDir) (pkg sch : String)
    (es1 es2 : List DirEntry)
    (h1 : es1.Perm (entriesAt d []))
    (h2 : es2.Perm (entriesAt d [pkg, sch])) :
    listPackagesCore es1 = sortStrings (childDirs d []) ∧
    List.Sorted (fun a b => a ≤ b) (listPackagesCore es1) ∧
    (∀ x, x ∈ listPackagesCore es1 ↔ [x] ∈ d.dirs) ∧
    listObjectsCore es2
      = sortStrings ((childFiles d [pkg, sch]).map
          (fun n => trimSuffix n ".json")) ∧
    List.Sorted (fun a b => a ≤ b) (listObjectsCore es2) := by
  have hpkg : listPackagesCore es1 = sortStrings (childDirs d []) := by
    unfold listPackagesCore
    rw [← entriesAt_filter_dir d []]
    exact sortStrings_eq_of_perm _ _ ((h1.filter _).map _)
  have hobj : listObjectsCore es2
      = sortStrings ((childFiles d [pkg, sch]).map
          (fun n => trimSuffix n ".json")) := by
    unfold listObjectsCore
    rw [← entriesAt_filter_file d [pkg, sch]]
    exact sortStrings_eq_of_perm _ _ ((h2.filter _).map _)
  refine ⟨hpkg, ?_, ?_, hobj, ?_⟩
  · unfold listPackagesCore
    exact sortStrings_sorted _
  · intro x
    rw [hpkg]
    unfold sortStrings
    rw [(List.perm_insertionSort _ _).mem_iff]
    exact mem_childDirs_root d x
  · unfold listObjectsCore
    exact sortStrings_sorted _

/-- Witness for the sorted-listing theorem on a concrete snapshot and a
concrete shuffled enumeration. -/
theorem c9_witness :
    listPackagesCore [⟨"b", false⟩, ⟨"Q", true⟩, ⟨"P", true⟩]
      = sortStrings (childDirs ⟨[["P"], ["Q"]],
          [(["b"], Blob.invalidJson)]⟩ []) ∧
    List.Sorted (fun a b => a ≤ b)
      (listPackagesCore [⟨"b", false⟩, ⟨"Q", true⟩, ⟨"P", true⟩]) ∧
    (∀ x, x ∈ listPackagesCore [⟨"b", false⟩, ⟨"Q", true⟩, ⟨"P", true⟩] ↔
      [x] ∈ ([["P"], ["Q"]] : List (List String))) ∧
    listObjectsCore [] = sortStrings ((childFiles ⟨[["P"], ["Q"]],
        [(["b"], Blob.invalidJson)]⟩ ["p", "s"]).map
          (fun n => trimSuffix n ".json")) ∧
    List.Sorted (fun a b => a ≤ b) (listObjectsCore []) :=
  c9_sorted_listings ⟨[["P"], ["Q"]], [(["b"], Blob.invalidJson)]⟩ "p" "s"
    [⟨"b", false⟩, ⟨"Q", true⟩, ⟨"P", true⟩] [] (by decide) (by decide)
